import Mathlib

/-!
Verification of the placeholder-contract resolver of beancount-inquiry.

The repository has two source variants of the core:
its CLI variant (file bean-inquiry.py, functions which_type, valid_pyname,
valid_int, get_placeholders, parse_params, and the format step of main), and
its structured-literal variant (file src/bean_inquiry/bean_inquiry.py,
functions parse_params, extract_required_params and the validation and
format steps of bean_inquiry).  Strings are embedded as List Char; the
Python regular expressions and library calls used by the source are modelled
by explicit scanning functions documented at each definition.
-/

/-! ## Placeholder classifier, from bean-inquiry.py lines 19 to 36 -/

/-- Model of the ASCII character class in the regex of valid_pyname:
letters a-z, A-Z and the underscore. -/
def isPyAlpha (c : Char) : Bool :=
  (97 ≤ c.toNat && c.toNat ≤ 122) || (65 ≤ c.toNat && c.toNat ≤ 90) || c.toNat = 95

/-- Model of the regex digit class, restricted to ASCII 0-9.  The Python
class matches further Unicode decimal digits; no claim depends on them. -/
def isDigitB (c : Char) : Bool :=
  48 ≤ c.toNat && c.toNat ≤ 57

/-- Character class for the tail of a Python identifier. -/
def isPyAlnum (c : Char) : Bool :=
  isPyAlpha c || isDigitB c

/-- Full match of the body of the valid_pyname regex, without the
dollar-before-final-newline allowance. -/
def pynameCore : List Char → Bool
  | [] => false
  | c :: rest => isPyAlpha c && rest.all isPyAlnum

/-- Full match of the body of the valid_int regex, one or more digits. -/
def intCore : List Char → Bool
  | [] => false
  | l => l.all isDigitB

/-- In Python re, a dollar anchor also matches just before one final
newline character; re.match of a pattern anchored with dollar therefore
accepts the core match or the core match followed by one final newline. -/
def withDollarNL (core : List Char → Bool) (s : List Char) : Bool :=
  core s || (if s.getLast? = some '\n' then core s.dropLast else false)

/-- Source valid_pyname: re.match of an anchored identifier pattern. -/
def valid_pyname (s : List Char) : Bool := withDollarNL pynameCore s

/-- Source valid_int: re.match of an anchored one-or-more-digits pattern. -/
def valid_int (s : List Char) : Bool := withDollarNL intCore s

/-- The Placeholder enum of bean-inquiry.py. -/
inductive Placeholder where
  | named
  | indexed
  | blank
deriving DecidableEq

/-- Source which_type: named if a valid Python name, else indexed if a
valid integer, else blank if the text is empty, else no classification. -/
def which_type (text : List Char) : Option Placeholder :=
  if valid_pyname text then some Placeholder.named
  else if valid_int text then some Placeholder.indexed
  else if text = [] then some Placeholder.blank
  else none

/-! ## Template scanner, from bean-inquiry.py lines 59 to 81 -/

/-- Model of re.findall of the pattern brace-open, any characters other
than brace-close, brace-close.  The scan walks left to right; an open brace
starts a token, which collects every following character up to the first
close brace; a token left open at the end of the string is discarded, and
matches do not overlap.  The second argument holds the token collected so
far when the scan stands inside an open placeholder. -/
def scanPh : List Char → Option (List Char) → List (List Char)
  | [], _ => []
  | c :: rest, none =>
    if c = '\x7b' then scanPh rest (some []) else scanPh rest none
  | c :: rest, some acc =>
    if c = '\x7d' then acc :: scanPh rest none
    else scanPh rest (some (acc ++ [c]))

/-- All placeholder tokens of a template, in source order. -/
def findPlaceholders (s : List Char) : List (List Char) :=
  scanPh s none

/-- Source get_placeholders.  With no match it returns an empty token list
and the empty-string type, modelled as none.  Otherwise the first token
fixes the expected style; any token of another classification (or with no
classification at all) makes the whole scan fail.  For styles other than
blank the token list is passed through list and set, modelled as dedup;
the Python set order is unspecified and no caller depends on it. -/
def get_placeholders (q : List Char) : Option (List (List Char) × Option Placeholder) :=
  match findPlaceholders q with
  | [] => some ([], none)
  | m :: ms =>
    match which_type m with
    | none => none
    | some expected =>
      if ∀ p ∈ m :: ms, which_type p = some expected then
        if expected = Placeholder.blank then some (m :: ms, some expected)
        else some ((m :: ms).dedup, some expected)
      else none

/-! ## CLI parameter materializer and validator, bean-inquiry.py lines 83 to 107 -/

/-- Errors printed by parse_params of bean-inquiry.py; each constructor
carries exactly the dynamic data interpolated into the printed f-string.
The count message interpolates the needed count and the sorted placeholder
forms, the unknown-key message the key and the forms, the no-colon and
missing-key messages carry a fixed text and the forms respectively. -/
inductive ParseErr where
  | countMismatch (needed : Nat) (forms : List Char)
  | namedNoColon
  | unknownKey (key : List Char) (forms : List Char)
  | missingKeys (forms : List Char)
deriving DecidableEq

/-- Result of parse_params: a positional list or a keyword dictionary. -/
inductive CliParsed where
  | posList (ps : List (List Char))
  | dict (d : List (List Char × List Char))
deriving DecidableEq

/-- Model of p.split with separator colon and maxsplit one: the text
before the first colon and the text after it, or nothing when the string
holds no colon (in which case the Python split has length one). -/
def splitOnceColon : List Char → Option (List Char × List Char)
  | [] => none
  | c :: rest =>
    if c = ':' then some ([], rest)
    else
      match splitOnceColon rest with
      | some (k, v) => some (c :: k, v)
      | none => none

/-- Python dictionary assignment: replace the value of an existing key in
place, otherwise append the new pair. -/
def updateAssoc (d : List (List Char × List Char)) (k v : List Char) :
    List (List Char × List Char) :=
  match d with
  | [] => [(k, v)]
  | (k2, v2) :: rest =>
    if k2 = k then (k, v) :: rest else (k2, v2) :: updateAssoc rest k v

/-- Python dictionary lookup on the association list. -/
def lookupA (d : List (List Char × List Char)) (k : List Char) : Option (List Char) :=
  match d with
  | [] => none
  | (k2, v) :: rest => if k2 = k then some v else lookupA rest k

/-- The named-parameter loop of parse_params: split each token at its
first colon, fail on a token without a colon, fail on a key that is not a
discovered placeholder, otherwise assign into the dictionary. -/
def buildDict (params placeholders : List (List Char)) (pstring : List Char)
    (acc : List (List Char × List Char)) :
    Except ParseErr (List (List Char × List Char)) :=
  match params with
  | [] => .ok acc
  | p :: rest =>
    match splitOnceColon p with
    | none => .error ParseErr.namedNoColon
    | some (k, v) =>
      if k ∈ placeholders then buildDict rest placeholders pstring (updateAssoc acc k v)
      else .error (ParseErr.unknownKey k pstring)

/-- Source parse_params of bean-inquiry.py.  Empty input against an empty
placeholder list yields an empty positional list; a count mismatch is the
count error; for the named style the tokens are folded into a dictionary
and full key coverage is then checked; any other style returns the tokens
positionally. -/
def parse_params (params placeholders : List (List Char)) (ptype : Option Placeholder)
    (pstring : List Char) : Except ParseErr CliParsed :=
  if params = [] ∧ placeholders = [] then .ok (CliParsed.posList [])
  else if (params = [] ∧ placeholders ≠ []) ∨ params.length ≠ placeholders.length then
    .error (ParseErr.countMismatch placeholders.length pstring)
  else if ptype = some Placeholder.named then
    match buildDict params placeholders pstring [] with
    | .error e => .error e
    | .ok d =>
      if ∀ q ∈ placeholders, (lookupA d q).isSome then .ok (CliParsed.dict d)
      else .error (ParseErr.missingKeys pstring)
  else .ok (CliParsed.posList params)

/-! ## Model of the Python str.format substitution engine

Both variants substitute through str.format.  The model covers the inputs
reachable through the pipeline: literal text, doubled braces as escapes,
and simple replacement fields (a bare name, a bare index, or a blank).
A field carrying a conversion or a format specification is rejected by the
scanner before substitution ever runs, and the model maps every such field,
like Python maps the corresponding failures, to an error, here none. -/

/-- State of the format scan: outside any field, just past an open brace,
just past a close brace, or inside a field holding the text collected so
far.  The two one-brace states express the doubled-brace escapes of the
format grammar with one character of context. -/
inductive FmtSt where
  | outside
  | afterOpen
  | afterClose
  | inField (acc : List Char)

/-- Resolution of one replacement field against keyword arguments.  A
blank or all-digit field asks for a positional argument and raises an
IndexError when only keywords were given; a field holding an open brace, a
colon or an exclamation mark is outside the modelled simple-name fragment
and errors; otherwise the field is a key looked up in the dictionary, a
missing key raising KeyError. -/
def lookupField (d : List (List Char × List Char)) (f : List Char) : Option (List Char) :=
  if f = [] then none
  else if f.any (fun c => c = '\x7b' || c = ':' || c = '!') then none
  else if f.all isDigitB then none
  else lookupA d f

/-- Scan of str.format with keyword arguments: doubled braces emit one
brace, a lone close brace is an error, an open brace starts a field closed
by the next close brace and replaced by its resolved value, and a field
left open at the end of the string is an error. -/
def fmtMapGo (d : List (List Char × List Char)) : List Char → FmtSt → Option (List Char)
  | [], FmtSt.outside => some []
  | [], FmtSt.afterOpen => none
  | [], FmtSt.afterClose => none
  | [], FmtSt.inField _ => none
  | c :: rest, FmtSt.outside =>
    if c = '\x7b' then fmtMapGo d rest FmtSt.afterOpen
    else if c = '\x7d' then fmtMapGo d rest FmtSt.afterClose
    else Option.map (fun r => c :: r) (fmtMapGo d rest FmtSt.outside)
  | c :: rest, FmtSt.afterOpen =>
    if c = '\x7b' then Option.map (fun r => '\x7b' :: r) (fmtMapGo d rest FmtSt.outside)
    else if c = '\x7d' then
      match lookupField d [] with
      | some v => Option.map (fun r => v ++ r) (fmtMapGo d rest FmtSt.outside)
      | none => none
    else fmtMapGo d rest (FmtSt.inField [c])
  | c :: rest, FmtSt.afterClose =>
    if c = '\x7d' then Option.map (fun r => '\x7d' :: r) (fmtMapGo d rest FmtSt.outside)
    else none
  | c :: rest, FmtSt.inField acc =>
    if c = '\x7d' then
      match lookupField d acc with
      | some v => Option.map (fun r => v ++ r) (fmtMapGo d rest FmtSt.outside)
      | none => none
    else fmtMapGo d rest (FmtSt.inField (acc ++ [c]))

/-- Model of template.format with keyword arguments only. -/
def pyFormatMap (d : List (List Char × List Char)) (t : List Char) : Option (List Char) :=
  fmtMapGo d t FmtSt.outside

/-- Numbering state of positional format: no field seen yet, automatic
numbering holding the next index, or manual numbering.  Python forbids
switching between automatic and manual numbering. -/
inductive NumMode where
  | unset
  | auto (next : Nat)
  | manual

/-- Numeric value of an all-digit field. -/
def digitsToNat (l : List Char) : Nat :=
  l.foldl (fun a c => a * 10 + (c.toNat - 48)) 0

/-- Resolution of one replacement field against positional arguments: a
blank field takes the next automatic argument, an all-digit field indexes
the arguments manually, switching numbering styles or indexing out of
range errors, and a named field errors since no keywords were given. -/
def resolvePosField (args : List (List Char)) (f : List Char) (m : NumMode) :
    Option (List Char × NumMode) :=
  if f = [] then
    match m with
    | NumMode.manual => none
    | NumMode.unset =>
      match args[0]? with
      | some v => some (v, NumMode.auto 1)
      | none => none
    | NumMode.auto n =>
      match args[n]? with
      | some v => some (v, NumMode.auto (n + 1))
      | none => none
  else if f.all isDigitB then
    match m with
    | NumMode.auto _ => none
    | _ =>
      match args[digitsToNat f]? with
      | some v => some (v, NumMode.manual)
      | none => none
  else none

/-- Scan of str.format with positional arguments, mirroring fmtMapGo but
resolving fields positionally and threading the numbering state. -/
def fmtPosGo (args : List (List Char)) : List Char → FmtSt → NumMode → Option (List Char)
  | [], FmtSt.outside, _ => some []
  | [], FmtSt.afterOpen, _ => none
  | [], FmtSt.afterClose, _ => none
  | [], FmtSt.inField _, _ => none
  | c :: rest, FmtSt.outside, m =>
    if c = '\x7b' then fmtPosGo args rest FmtSt.afterOpen m
    else if c = '\x7d' then fmtPosGo args rest FmtSt.afterClose m
    else Option.map (fun r => c :: r) (fmtPosGo args rest FmtSt.outside m)
  | c :: rest, FmtSt.afterOpen, m =>
    if c = '\x7b' then Option.map (fun r => '\x7b' :: r) (fmtPosGo args rest FmtSt.outside m)
    else if c = '\x7d' then
      match resolvePosField args [] m with
      | some (v, m2) => Option.map (fun r => v ++ r) (fmtPosGo args rest FmtSt.outside m2)
      | none => none
    else fmtPosGo args rest (FmtSt.inField [c]) m
  | c :: rest, FmtSt.afterClose, m =>
    if c = '\x7d' then Option.map (fun r => '\x7d' :: r) (fmtPosGo args rest FmtSt.outside m)
    else none
  | c :: rest, FmtSt.inField acc, m =>
    if c = '\x7d' then
      match resolvePosField args acc m with
      | some (v, m2) => Option.map (fun r => v ++ r) (fmtPosGo args rest FmtSt.outside m2)
      | none => none
    else fmtPosGo args rest (FmtSt.inField (acc ++ [c])) m

/-- Model of template.format with positional arguments only. -/
def pyFormatPos (args : List (List Char)) (t : List Char) : Option (List Char) :=
  fmtPosGo args t FmtSt.outside NumMode.unset

/-- The format step of main in bean-inquiry.py, lines 170 to 179: an empty
parsed value is falsy and skips substitution; a list formats positionally
and a dictionary by keyword; a format exception exits with an error,
modelled as none. -/
def cliSubstitute (t : List Char) (p : CliParsed) : Option (List Char) :=
  match p with
  | CliParsed.posList ps => if ps = [] then some t else pyFormatPos ps t
  | CliParsed.dict d => if d = [] then some t else pyFormatMap d t

/-! ## Structured-literal variant, src/bean_inquiry/bean_inquiry.py

Parameter values of this variant are Python values produced by json.loads
or ast.literal_eval.  Python tuples and sets are modelled through the list
and setV constructors; a numeric literal with a fractional or exponent
part keeps its raw text, since no claim inspects its numeric value. -/

/-- Model of the Python values flowing through the structured variant. -/
inductive PyVal where
  | str (s : List Char)
  | intV (n : Int)
  | boolV (b : Bool)
  | noneV
  | floatRaw (s : List Char)
  | list (xs : List PyVal)
  | setV (xs : List PyVal)
  | dict (kvs : List (PyVal × PyVal))

/-- Python truthiness of the modelled values; a float is falsy exactly
when all its digits are zero. -/
def truthy : PyVal → Bool
  | PyVal.str s => !s.isEmpty
  | PyVal.intV n => n != 0
  | PyVal.boolV b => b
  | PyVal.noneV => false
  | PyVal.floatRaw s => s.any (fun c => isDigitB c && c != '0')
  | PyVal.list xs => !xs.isEmpty
  | PyVal.setV xs => !xs.isEmpty
  | PyVal.dict kvs => !kvs.isEmpty

mutual

/-- Model of the Python repr of a value, used when a container value is
substituted into a template.  String quoting ignores escape subtleties;
no claim depends on container rendering. -/
def pyReprVal : PyVal → List Char
  | PyVal.str s => '\'' :: (s ++ ['\''])
  | PyVal.intV n => (Int.repr n).toList
  | PyVal.boolV b => if b then "True".toList else "False".toList
  | PyVal.noneV => "None".toList
  | PyVal.floatRaw s => s
  | PyVal.list xs => '[' :: (pyReprList xs ++ [']'])
  | PyVal.setV xs => '\x7b' :: (pyReprList xs ++ ['\x7d'])
  | PyVal.dict kvs => '\x7b' :: (pyReprDict kvs ++ ['\x7d'])

/-- Comma-separated reprs of list elements. -/
def pyReprList : List PyVal → List Char
  | [] => []
  | [x] => pyReprVal x
  | x :: y :: xs => pyReprVal x ++ (',' :: ' ' :: pyReprList (y :: xs))

/-- Comma-separated regular key-value reprs of dictionary entries. -/
def pyReprDict : List (PyVal × PyVal) → List Char
  | [] => []
  | [(k, v)] => pyReprVal k ++ (':' :: ' ' :: pyReprVal v)
  | (k, v) :: e :: kvs =>
    pyReprVal k ++ (':' :: ' ' :: pyReprVal v) ++ (',' :: ' ' :: pyReprDict (e :: kvs))

end

/-- Text a value contributes when substituted by str.format with an empty
specification: strings stay themselves, scalars print like str, and
containers print their repr. -/
def pyFormatArg : PyVal → List Char
  | PyVal.str s => s
  | PyVal.intV n => (Int.repr n).toList
  | PyVal.boolV b => if b then "True".toList else "False".toList
  | PyVal.noneV => "None".toList
  | PyVal.floatRaw s => s
  | v => pyReprVal v

/-! ### Template scan of extract_required_params, lines 62 to 80 -/

/-- Model of re.sub deleting every match of brace-open, one or more
characters other than brace-close, brace-close.  The pending argument
holds, while a candidate match is open, the characters seen since its
opening brace; a candidate with an empty inner text is not a match and its
two braces are kept, and a candidate never closed is emitted verbatim at
the end of the string. -/
def subNonEmpty : List Char → Option (List Char) → List Char
  | [], none => []
  | [], some pending => pending
  | c :: rest, none =>
    if c = '\x7b' then subNonEmpty rest (some ['\x7b'])
    else c :: subNonEmpty rest none
  | c :: rest, some pending =>
    if c = '\x7d' then
      if pending = ['\x7b'] then pending ++ '\x7d' :: subNonEmpty rest none
      else subNonEmpty rest none
    else subNonEmpty rest (some (pending ++ [c]))

/-- Model of str.count of the two-character text brace-open brace-close:
the number of non-overlapping occurrences, scanning left to right.  The
flag records whether the previous character was an open brace still free
to pair with a close brace. -/
def countPairsGo : List Char → Bool → Nat
  | [], _ => 0
  | c :: rest, false =>
    if c = '\x7b' then countPairsGo rest true else countPairsGo rest false
  | c :: rest, true =>
    if c = '\x7d' then countPairsGo rest false + 1
    else if c = '\x7b' then countPairsGo rest true
    else countPairsGo rest false

/-- Non-overlapping brace-pair count of a string. -/
def countBracePairs (s : List Char) : Nat :=
  countPairsGo s false

/-- Python set insertion, modelled on a duplicate-free list.  The Python
iteration order of a set is unspecified and every consumer of this set is
order-insensitive, so insertion order stands in for it. -/
def pySetInsert (s : List (List Char)) (x : List Char) : List (List Char) :=
  if x ∈ s then s else s ++ [x]

/-- Source extract_required_params: every non-empty placeholder token goes
into a set; then every placeholder with a non-empty token is deleted from
the template, the remaining anonymous pairs are counted, and the decimal
numerals zero up to that count join the set. -/
def extract_required_params (q : List Char) : List (List Char) :=
  let named := ((findPlaceholders q).filter (fun t => t ≠ [])).foldl pySetInsert []
  let n := countBracePairs (subNonEmpty q none)
  ((List.range n).map (fun i => (Nat.repr i).toList)).foldl pySetInsert named

/-! ### Validation step of bean_inquiry, lines 140 to 156 -/

/-- Outcomes of the validation step.  The echoed diagnostics carry the
interpolated data: the count message the expected and actual counts, the
single-string message the sorted required forms.  The dictionary branch
evaluates a subtraction of a Python set from a Python list, an operation
that raises TypeError; that uncaught exception is the last constructor. -/
inductive TyErr where
  | noneProvided
  | countShort (expected actual : Nat)
  | singleString (forms : List (List Char))
  | uncaughtTypeError
deriving DecidableEq

/-- Source validation step of bean_inquiry against the required forms.
With no required parameter every input passes.  Otherwise a falsy input is
the none-provided error; a dictionary reaches the list-minus-set
subtraction and raises TypeError; a list errs only when shorter than the
required count; a string errs when more than one parameter is required;
any other value passes unchecked. -/
def bean_inquiry_validate (required : List (List Char)) (parsed : PyVal) :
    Except TyErr Unit :=
  if required = [] then .ok ()
  else if truthy parsed = false then .error TyErr.noneProvided
  else
    match parsed with
    | PyVal.dict _ => .error TyErr.uncaughtTypeError
    | PyVal.list xs =>
      if xs.length < required.length then .error (TyErr.countShort required.length xs.length)
      else .ok ()
    | PyVal.str _ =>
      if required.length > 1 then .error (TyErr.singleString required) else .ok ()
    | _ => .ok ()

/-! ### Substitution step of bean_inquiry, lines 158 to 169 -/

/-- Keyword expansion of a parsed dictionary: format with double-star
requires every key to be a string, else Python raises TypeError. -/
def typerDictAssoc : List (PyVal × PyVal) → Option (List (List Char × List Char))
  | [] => some []
  | (PyVal.str k, v) :: rest =>
    Option.map (fun r => (k, pyFormatArg v) :: r) (typerDictAssoc rest)
  | _ => none

/-- Source substitution step of bean_inquiry: a falsy parsed value skips
substitution; a string formats as a single positional argument, a list
positionally, a dictionary by keyword; any other value matches none of the
isinstance branches and the template is left unchanged. -/
def typerSubstitute (t : List Char) (parsed : PyVal) : Option (List Char) :=
  if truthy parsed then
    match parsed with
    | PyVal.str s => pyFormatPos [s] t
    | PyVal.list xs => pyFormatPos (xs.map pyFormatArg) t
    | PyVal.dict kvs =>
      match typerDictAssoc kvs with
      | some d => pyFormatMap d t
      | none => none
    | _ => some t
  else some t

/-! ### Parameter-string parsing of parse_params, lines 39 to 52

The source calls json.loads and, when that raises JSONDecodeError, falls
back to ast.literal_eval, echoing the detail of the exception raised by
the fallback when both fail.  The two library parsers are modelled below
for the literal fragment the tool documents (quoted strings, numbers,
booleans, null and None, lists, tuples, dictionaries); the error detail is
modelled as the failure position. -/

/-- Detail of a json.JSONDecodeError, modelled as its position. -/
inductive JsonErr where
  | decodeError (pos : Nat)
deriving DecidableEq

/-- Detail of the ValueError or SyntaxError of ast.literal_eval, modelled
as its position. -/
inductive AstErr where
  | evalError (pos : Nat)
deriving DecidableEq

/-- Whitespace skipping shared by both parser models; returns the rest of
the input and the advanced position. -/
def litSkipWs : List Char → Nat → List Char × Nat
  | [], n => ([], n)
  | c :: rest, n =>
    if c = ' ' || c = '\t' || c = '\n' || c = '\r' then litSkipWs rest (n + 1)
    else (c :: rest, n)

/-- Body of a quoted string up to the given closing quote.  The common
backslash escapes are mapped; rarer escapes are outside the modelled
fragment and fail. -/
def litStringBody (quote : Char) : List Char → Nat → Option (List Char × List Char × Nat)
  | [], _ => none
  | c :: rest, n =>
    if c = quote then some ([], rest, n + 1)
    else if c = '\\' then
      match rest with
      | [] => none
      | e :: rest2 =>
        let mapped : Option Char :=
          if e = 'n' then some '\n'
          else if e = 't' then some '\t'
          else if e = 'r' then some '\r'
          else if e = '\\' then some '\\'
          else if e = '"' then some '"'
          else if e = '\'' then some '\'' else none
        match mapped with
        | some mc =>
          match litStringBody quote rest2 (n + 2) with
          | some (s, r, p) => some (mc :: s, r, p)
          | none => none
        | none => none
    else
      match litStringBody quote rest (n + 1) with
      | some (s, r, p) => some (c :: s, r, p)
      | none => none

/-- Longest digit run at the head of the input. -/
def takeDigits : List Char → List Char × List Char
  | [] => ([], [])
  | c :: rest =>
    if isDigitB c then
      let (d, r) := takeDigits rest
      (c :: d, r)
    else ([], c :: rest)

/-- Decimal value of a digit run. -/
def digitsToInt (l : List Char) : Int :=
  Int.ofNat (digitsToNat l)

/-- Numeric literal scan shared by both parser models: an optional sign,
an integer part, then an optional fractional part and an optional
exponent.  A number with only an integer part is an int value; otherwise
the raw text of the number is kept as a float. -/
def litNumber (allowPlus : Bool) (s : List Char) (pos : Nat) :
    Option (PyVal × List Char × Nat) :=
  let (sign, s1, p1) :=
    match s with
    | '-' :: r => (true, r, pos + 1)
    | '+' :: r => if allowPlus then (false, r, pos + 1) else (false, '+' :: r, pos)
    | r => (false, r, pos)
  match s1 with
  | c :: _ =>
    if isDigitB c then
      let (ds, r2) := takeDigits s1
      let p2 := p1 + ds.length
      match r2 with
      | '.' :: r3 =>
        let (fs, r4) := takeDigits r3
        if fs = [] then none
        else
          let raw := (if sign then ['-'] else []) ++ ds ++ '.' :: fs
          some (PyVal.floatRaw raw, r4, p2 + 1 + fs.length)
      | 'e' :: r3 =>
        let (es, r4) :=
          match r3 with
          | '-' :: r5 => let (es0, r5b) := takeDigits r5; ('-' :: es0, r5b)
          | '+' :: r5 => let (es0, r5b) := takeDigits r5; ('+' :: es0, r5b)
          | r5 => takeDigits r5
        if es = [] ∨ es = ['-'] ∨ es = ['+'] then none
        else
          let raw := (if sign then ['-'] else []) ++ ds ++ 'e' :: es
          some (PyVal.floatRaw raw, r4, p2 + 1 + es.length)
      | _ =>
        let v := if sign then -(digitsToInt ds) else digitsToInt ds
        some (PyVal.intV v, r2, p2)
    else none
  | [] => none

/-- Literal keyword match: strips the expected characters from the head
of the input. -/
def stripLit : List Char → List Char → Option (List Char)
  | [], s => some s
  | e :: es, c :: s => if c = e then stripLit es s else none
  | _ :: _, [] => none

mutual

/-- Model of the json.loads value grammar: strings with double quotes,
numbers, true, false, null, arrays and objects with string keys.  The
fuel argument bounds nesting and always suffices for inputs of length
below the fuel. -/
def jsonValue : Nat → List Char → Nat → Except JsonErr (PyVal × List Char × Nat)
  | 0, _, pos => .error (JsonErr.decodeError pos)
  | _ + 1, [], pos => .error (JsonErr.decodeError pos)
  | fuel + 1, c :: rest, pos =>
    if c = '"' then
      match litStringBody '"' rest (pos + 1) with
      | some (s, r, p) => .ok (PyVal.str s, r, p)
      | none => .error (JsonErr.decodeError pos)
    else if c = '-' || isDigitB c then
      match litNumber false (c :: rest) pos with
      | some out => .ok out
      | none => .error (JsonErr.decodeError pos)
    else if c = 't' then
      match stripLit "rue".toList rest with
      | some r => .ok (PyVal.boolV true, r, pos + 4)
      | none => .error (JsonErr.decodeError pos)
    else if c = 'f' then
      match stripLit "alse".toList rest with
      | some r => .ok (PyVal.boolV false, r, pos + 5)
      | none => .error (JsonErr.decodeError pos)
    else if c = 'n' then
      match stripLit "ull".toList rest with
      | some r => .ok (PyVal.noneV, r, pos + 4)
      | none => .error (JsonErr.decodeError pos)
    else if c = '[' then
      let (r1, p1) := litSkipWs rest (pos + 1)
      match r1 with
      | ']' :: r2 => .ok (PyVal.list [], r2, p1 + 1)
      | _ => jsonArrayItems fuel r1 p1 []
    else if c = '\x7b' then
      let (r1, p1) := litSkipWs rest (pos + 1)
      match r1 with
      | '\x7d' :: r2 => .ok (PyVal.dict [], r2, p1 + 1)
      | _ => jsonObjItems fuel r1 p1 []
    else .error (JsonErr.decodeError pos)

/-- Comma-separated array elements of the json model, after the opening
bracket, accumulating parsed elements. -/
def jsonArrayItems : Nat → List Char → Nat → List PyVal →
    Except JsonErr (PyVal × List Char × Nat)
  | 0, _, pos, _ => .error (JsonErr.decodeError pos)
  | fuel + 1, s, pos, acc =>
    match jsonValue fuel s pos with
    | .error e => .error e
    | .ok (v, r, p) =>
      let (r1, p1) := litSkipWs r p
      match r1 with
      | ',' :: r2 =>
        let (r3, p3) := litSkipWs r2 (p1 + 1)
        jsonArrayItems fuel r3 p3 (acc ++ [v])
      | ']' :: r2 => .ok (PyVal.list (acc ++ [v]), r2, p1 + 1)
      | _ => .error (JsonErr.decodeError p1)

/-- Comma-separated members of a json object, after the opening brace,
each a double-quoted key, a colon and a value. -/
def jsonObjItems : Nat → List Char → Nat → List (PyVal × PyVal) →
    Except JsonErr (PyVal × List Char × Nat)
  | 0, _, pos, _ => .error (JsonErr.decodeError pos)
  | fuel + 1, s, pos, acc =>
    match s with
    | '"' :: rest =>
      match litStringBody '"' rest (pos + 1) with
      | some (k, r, p) =>
        let (r1, p1) := litSkipWs r p
        match r1 with
        | ':' :: r2 =>
          let (r3, p3) := litSkipWs r2 (p1 + 1)
          match jsonValue fuel r3 p3 with
          | .error e => .error e
          | .ok (v, r4, p4) =>
            let (r5, p5) := litSkipWs r4 p4
            match r5 with
            | ',' :: r6 =>
              let (r7, p7) := litSkipWs r6 (p5 + 1)
              jsonObjItems fuel r7 p7 (acc ++ [(PyVal.str k, v)])
            | '\x7d' :: r6 => .ok (PyVal.dict (acc ++ [(PyVal.str k, v)]), r6, p5 + 1)
            | _ => .error (JsonErr.decodeError p5)
        | _ => .error (JsonErr.decodeError p1)
      | none => .error (JsonErr.decodeError pos)
    | _ => .error (JsonErr.decodeError pos)

end

/-- Model of json.loads: skip whitespace, parse one value, and reject any
trailing non-whitespace as extra data. -/
def json_loads (s : List Char) : Except JsonErr PyVal :=
  let (r0, p0) := litSkipWs s 0
  match jsonValue (s.length + 1) r0 p0 with
  | .error e => .error e
  | .ok (v, r, p) =>
    let (r1, p1) := litSkipWs r p
    if r1 = [] then .ok v else .error (JsonErr.decodeError p1)

mutual

/-- Model of the ast.literal_eval value grammar: strings with either
quote, signed numbers, True, False, None, lists, tuples (modelled as
lists, as the consumer treats them alike), sets and dictionaries, with
trailing commas allowed and a parenthesized single value passing through. -/
def astValue : Nat → List Char → Nat → Except AstErr (PyVal × List Char × Nat)
  | 0, _, pos => .error (AstErr.evalError pos)
  | _ + 1, [], pos => .error (AstErr.evalError pos)
  | fuel + 1, c :: rest, pos =>
    if c = '"' ∨ c = '\'' then
      match litStringBody c rest (pos + 1) with
      | some (s, r, p) => .ok (PyVal.str s, r, p)
      | none => .error (AstErr.evalError pos)
    else if c = '-' || c = '+' || isDigitB c then
      match litNumber true (c :: rest) pos with
      | some out => .ok out
      | none => .error (AstErr.evalError pos)
    else if c = 'T' then
      match stripLit "rue".toList rest with
      | some r => .ok (PyVal.boolV true, r, pos + 4)
      | none => .error (AstErr.evalError pos)
    else if c = 'F' then
      match stripLit "alse".toList rest with
      | some r => .ok (PyVal.boolV false, r, pos + 5)
      | none => .error (AstErr.evalError pos)
    else if c = 'N' then
      match stripLit "one".toList rest with
      | some r => .ok (PyVal.noneV, r, pos + 4)
      | none => .error (AstErr.evalError pos)
    else if c = '[' then
      let (r1, p1) := litSkipWs rest (pos + 1)
      match r1 with
      | ']' :: r2 => .ok (PyVal.list [], r2, p1 + 1)
      | _ => astSeqItems fuel ']' false r1 p1 []
    else if c = '(' then
      let (r1, p1) := litSkipWs rest (pos + 1)
      match r1 with
      | ')' :: r2 => .ok (PyVal.list [], r2, p1 + 1)
      | _ =>
        match astValue fuel r1 p1 with
        | .error e => .error e
        | .ok (v, r2, p2) =>
          let (r3, p3) := litSkipWs r2 p2
          match r3 with
          | ')' :: r4 => .ok (v, r4, p3 + 1)
          | ',' :: r4 =>
            let (r5, p5) := litSkipWs r4 (p3 + 1)
            match r5 with
            | ')' :: r6 => .ok (PyVal.list [v], r6, p5 + 1)
            | _ => astSeqItems fuel ')' false r5 p5 [v]
          | _ => .error (AstErr.evalError p3)
    else if c = '\x7b' then
      let (r1, p1) := litSkipWs rest (pos + 1)
      match r1 with
      | '\x7d' :: r2 => .ok (PyVal.dict [], r2, p1 + 1)
      | _ =>
        match astValue fuel r1 p1 with
        | .error e => .error e
        | .ok (k, r2, p2) =>
          let (r3, p3) := litSkipWs r2 p2
          match r3 with
          | ':' :: r4 =>
            let (r5, p5) := litSkipWs r4 (p3 + 1)
            match astValue fuel r5 p5 with
            | .error e => .error e
            | .ok (v, r6, p6) => astDictTail fuel r6 p6 [(k, v)]
          | ',' :: r4 =>
            let (r5, p5) := litSkipWs r4 (p3 + 1)
            match r5 with
            | '\x7d' :: r6 => .ok (PyVal.setV [k], r6, p5 + 1)
            | _ => astSeqItems fuel '\x7d' true r5 p5 [k]
          | '\x7d' :: r4 => .ok (PyVal.setV [k], r4, p3 + 1)
          | _ => .error (AstErr.evalError p3)
    else .error (AstErr.evalError pos)

/-- Comma-separated sequence items of the literal model, closed by the
given bracket; the flag selects the set constructor over the list one. -/
def astSeqItems : Nat → Char → Bool → List Char → Nat → List PyVal →
    Except AstErr (PyVal × List Char × Nat)
  | 0, _, _, _, pos, _ => .error (AstErr.evalError pos)
  | fuel + 1, closer, isSet, s, pos, acc =>
    match astValue fuel s pos with
    | .error e => .error e
    | .ok (v, r, p) =>
      let (r1, p1) := litSkipWs r p
      match r1 with
      | c2 :: r2 =>
        if c2 = closer then
          .ok (if isSet then PyVal.setV (acc ++ [v]) else PyVal.list (acc ++ [v]), r2, p1 + 1)
        else if c2 = ',' then
          let (r3, p3) := litSkipWs r2 (p1 + 1)
          match r3 with
          | c3 :: r4 =>
            if c3 = closer then
              .ok (if isSet then PyVal.setV (acc ++ [v]) else PyVal.list (acc ++ [v]), r4, p3 + 1)
            else astSeqItems fuel closer isSet r3 p3 (acc ++ [v])
          | [] => .error (AstErr.evalError p3)
        else .error (AstErr.evalError p1)
      | [] => .error (AstErr.evalError p1)

/-- Items of a dictionary literal after its first pair. -/
def astDictTail : Nat → List Char → Nat → List (PyVal × PyVal) →
    Except AstErr (PyVal × List Char × Nat)
  | 0, _, pos, _ => .error (AstErr.evalError pos)
  | fuel + 1, s, pos, acc =>
    let (r1, p1) := litSkipWs s pos
    match r1 with
    | '\x7d' :: r2 => .ok (PyVal.dict acc, r2, p1 + 1)
    | ',' :: r2 =>
      let (r3, p3) := litSkipWs r2 (p1 + 1)
      match r3 with
      | '\x7d' :: r4 => .ok (PyVal.dict acc, r4, p3 + 1)
      | _ =>
        match astValue fuel r3 p3 with
        | .error e => .error e
        | .ok (k, r4, p4) =>
          let (r5, p5) := litSkipWs r4 p4
          match r5 with
          | ':' :: r6 =>
            let (r7, p7) := litSkipWs r6 (p5 + 1)
            match astValue fuel r7 p7 with
            | .error e => .error e
            | .ok (v, r8, p8) => astDictTail fuel r8 p8 (acc ++ [(k, v)])
          | _ => .error (AstErr.evalError p5)
    | _ => .error (AstErr.evalError p1)

end

/-- Model of ast.literal_eval on a string: skip whitespace, parse one
literal value, and reject trailing non-whitespace. -/
def ast_literal_eval (s : List Char) : Except AstErr PyVal :=
  let (r0, p0) := litSkipWs s 0
  match astValue (s.length + 1) r0 p0 with
  | .error e => .error e
  | .ok (v, r, p) =>
    let (r1, p1) := litSkipWs r p
    if r1 = [] then .ok v else .error (AstErr.evalError p1)

/-- Detail carried by the echoed parse failure, tagged with the library
parser that produced it. -/
inductive PErrDetail where
  | fromJson (e : JsonErr)
  | fromAst (e : AstErr)
deriving DecidableEq

/-- Source parse_params of src/bean_inquiry/bean_inquiry.py: an empty
parameter string returns the empty string; otherwise json.loads is
attempted, its JSONDecodeError triggers ast.literal_eval, and when that
also fails its exception detail, not the json one, is echoed. -/
def bq_parse_params (params : List Char) : Except PErrDetail PyVal :=
  if params = [] then .ok (PyVal.str [])
  else
    match json_loads params with
    | .ok v => .ok v
    | .error _ =>
      match ast_literal_eval params with
      | .ok v => .ok v
      | .error e2 => .error (PErrDetail.fromAst e2)

/-! ## Structured templates

Claims quantifying over all templates of a given placeholder shape are
stated over a segment list: literal chunks free of braces alternating with
placeholder fields, rendered into the flat string the program actually
scans and formats. -/

/-- One template segment: literal text or one placeholder. -/
inductive Seg where
  | lit (s : List Char)
  | ph (tok : List Char)

/-- Rendering of one segment into template text. -/
def renderSeg : Seg → List Char
  | Seg.lit s => s
  | Seg.ph t => '\x7b' :: (t ++ ['\x7d'])

/-- Rendering of a whole segment list. -/
def render (segs : List Seg) : List Char :=
  (segs.map renderSeg).flatten

/-- The placeholder tokens of a segment list, in order, one entry per
occurrence. -/
def phToks (segs : List Seg) : List (List Char) :=
  segs.filterMap (fun sg => match sg with | Seg.ph t => some t | Seg.lit _ => none)

/-- Well-formedness of one segment: neither literal text nor a
placeholder token may hold a brace. -/
def segOK : Seg → Bool
  | Seg.lit s => s.all (fun c => c != '\x7b' && c != '\x7d')
  | Seg.ph t => t.all (fun c => c != '\x7b' && c != '\x7d')

/-- Well-formedness of a segment list. -/
def segsOK (segs : List Seg) : Bool :=
  segs.all segOK

/-- Substitution of every placeholder of a segment list through a
dictionary, literal text kept verbatim; the reference result the format
model is compared against. -/
def renderWith (d : List (List Char × List Char)) (segs : List Seg) : List Char :=
  (segs.map (fun sg =>
    match sg with
    | Seg.lit s => s
    | Seg.ph t => (lookupA d t).getD [])).flatten

/-- Decidable equality of results, used to evaluate the development on
concrete inputs. -/
instance {e a : Type} [DecidableEq e] [DecidableEq a] : DecidableEq (Except e a) := fun x y =>
  match x, y with
  | .error u, .error v =>
    if h : u = v then isTrue (by rw [h]) else isFalse (fun hh => by cases hh; exact h rfl)
  | .ok u, .ok v =>
    if h : u = v then isTrue (by rw [h]) else isFalse (fun hh => by cases hh; exact h rfl)
  | .error _, .ok _ => isFalse (fun hh => by cases hh)
  | .ok _, .error _ => isFalse (fun hh => by cases hh)

/-! ## Theorems -/

theorem isPyAlpha_not_digit (c : Char) (h : isPyAlpha c = true) : isDigitB c = false := by
  by_contra hd
  rw [Bool.not_eq_false] at hd
  simp only [isPyAlpha, Bool.or_eq_true, Bool.and_eq_true, decide_eq_true_eq] at h
  simp only [isDigitB, Bool.and_eq_true, decide_eq_true_eq] at hd
  omega

theorem pynameCore_head {s : List Char} (h : pynameCore s = true) :
    ∃ c t, s = c :: t ∧ isPyAlpha c = true := by
  cases s with
  | nil => simp [pynameCore] at h
  | cons c t =>
    refine ⟨c, t, rfl, ?_⟩
    simp only [pynameCore, Bool.and_eq_true] at h
    exact h.1

theorem intCore_head {s : List Char} (h : intCore s = true) :
    ∃ c t, s = c :: t ∧ isDigitB c = true := by
  cases s with
  | nil => simp [intCore] at h
  | cons c t =>
    refine ⟨c, t, rfl, ?_⟩
    simp only [intCore, List.all_cons, Bool.and_eq_true] at h
    exact h.1

theorem withDollarNL_head {core : List Char → Bool} {P : Char → Bool} {s : List Char}
    (hhead : ∀ u : List Char, core u = true → ∃ c t, u = c :: t ∧ P c = true)
    (h : withDollarNL core s = true) : ∃ c, s.head? = some c ∧ P c = true := by
  simp only [withDollarNL, Bool.or_eq_true] at h
  rcases h with h | h
  · obtain ⟨c, t, rfl, hc⟩ := hhead s h
    exact ⟨c, rfl, hc⟩
  · split at h
    · obtain ⟨c, t, hdl, hc⟩ := hhead _ h
      refine ⟨c, ?_, hc⟩
      cases s with
      | nil => simp at hdl
      | cons a s1 =>
        cases s1 with
        | nil => simp at hdl
        | cons b s2 =>
          rw [List.dropLast_cons₂] at hdl
          injection hdl with h1 h2
          rw [h1]
          rfl
    · exact absurd h Bool.false_ne_true

/-- C9: the classifier which_type is total and its outcomes are mutually
exclusive: no string satisfies both valid_pyname and valid_int, the empty
string is the only string classified as blank, and every string maps to
exactly one of named, indexed, blank or none. -/
theorem c9_classifier_total (s : List Char) :
    ¬ (valid_pyname s = true ∧ valid_int s = true) ∧
    (which_type s = some Placeholder.blank ↔ s = []) ∧
    (which_type s = some Placeholder.named ∨ which_type s = some Placeholder.indexed ∨
      which_type s = some Placeholder.blank ∨ which_type s = none) := by
  refine ⟨?_, ⟨?_, ?_⟩, ?_⟩
  · rintro ⟨hp, hi⟩
    obtain ⟨c, hc, ha⟩ := withDollarNL_head (fun u hu => pynameCore_head hu) hp
    obtain ⟨c2, hc2, hd⟩ := withDollarNL_head (fun u hu => intCore_head hu) hi
    rw [hc] at hc2
    injection hc2 with he
    rw [← he] at hd
    rw [isPyAlpha_not_digit c ha] at hd
    exact Bool.false_ne_true hd
  · intro h
    unfold which_type at h
    split_ifs at h with h1 h2 h3
    · exact absurd (Option.some.inj h) (by intro hh; cases hh)
    · exact absurd (Option.some.inj h) (by intro hh; cases hh)
    · exact h3
  · rintro rfl
    decide
  · cases hw : which_type s with
    | none => tauto
    | some p => cases p <;> tauto

/-! ### Scanner lemmas -/

theorem scanPh_append_lit {s : List Char} (hs : ∀ c ∈ s, c ≠ '\x7b') (u : List Char) :
    scanPh (s ++ u) none = scanPh u none := by
  induction s with
  | nil => rfl
  | cons c s2 ih =>
    have hc : c ≠ '\x7b' := hs c (List.mem_cons_self c s2)
    simp only [List.cons_append, scanPh, if_neg hc]
    exact ih (fun x hx => hs x (List.mem_cons_of_mem c hx)) 

theorem scanPh_token {t : List Char} (ht : '\x7d' ∉ t) (acc u : List Char) :
    scanPh (t ++ '\x7d' :: u) (some acc) = (acc ++ t) :: scanPh u none := by
  induction t generalizing acc with
  | nil => simp [scanPh]
  | cons c t2 ih =>
    have hc : c ≠ '\x7d' := fun hh => ht (hh ▸ List.mem_cons_self c t2)
    simp only [List.cons_append, scanPh, if_neg hc, List.append_eq]
    rw [ih (fun hx => ht (List.mem_cons_of_mem c hx)) (acc ++ [c])]
    simp

theorem segChars_notMem {x : List Char}
    (h : x.all (fun c => c != '\x7b' && c != '\x7d') = true) :
    '\x7b' ∉ x ∧ '\x7d' ∉ x := by
  simp only [List.all_eq_true, Bool.and_eq_true, bne_iff_ne, ne_eq] at h
  constructor
  · intro hc
    exact (h _ hc).1 rfl
  · intro hc
    exact (h _ hc).2 rfl

theorem findPlaceholders_render {segs : List Seg} (h : segsOK segs = true) :
    findPlaceholders (render segs) = phToks segs := by
  induction segs with
  | nil => rfl
  | cons sg rest ih =>
    have hsg : segOK sg = true := by
      simp only [segsOK, List.all_cons, Bool.and_eq_true] at h
      exact h.1
    have hrest : segsOK rest = true := by
      simp only [segsOK, List.all_cons, Bool.and_eq_true] at h
      exact h.2
    cases sg with
    | lit s =>
      have hs : ∀ c ∈ s, c ≠ '\x7b' := by
        intro c hc hceq
        exact (segChars_notMem hsg).1 (hceq ▸ hc)
      show scanPh (s ++ render rest) none = phToks (Seg.lit s :: rest)
      rw [scanPh_append_lit hs]
      exact ih hrest
    | ph t =>
      have ht : '\x7d' ∉ t := (segChars_notMem hsg).2
      show scanPh (('\x7b' :: (t ++ ['\x7d'])) ++ render rest) none = phToks (Seg.ph t :: rest)
      have harr : ('\x7b' :: (t ++ ['\x7d'])) ++ render rest
          = '\x7b' :: (t ++ '\x7d' :: render rest) := by simp
      rw [harr]
      show scanPh ('\x7b' :: (t ++ '\x7d' :: render rest)) none = phToks (Seg.ph t :: rest)
      simp only [scanPh, if_pos rfl]
      rw [scanPh_token ht [] (render rest)]
      simp only [List.nil_append]
      show t :: findPlaceholders (render rest) = phToks (Seg.ph t :: rest)
      rw [ih hrest]
      rfl

/-- C2, corrected: whenever a template scan finds at least one placeholder
and some occurrence classifies differently from the first (an Invalid
classification included), get_placeholders of the CLI variant fails; the
failure is the bare value none, carrying no diagnostic data, so no error
names the two styles or the offending token, and the structured-literal
variant performs no style check at all. -/
theorem c2_style_conflict_amended (s : List Char) (m : List Char) (ms : List (List Char))
    (hfind : findPlaceholders s = m :: ms)
    (hmix : ∃ p ∈ m :: ms, which_type p ≠ which_type m) :
    get_placeholders s = none := by
  obtain ⟨p, hp, hne⟩ := hmix
  unfold get_placeholders
  simp only [hfind]
  cases hw : which_type m with
  | none => simp only [hw]
  | some expected =>
    have hnall : ¬ ∀ p2 ∈ m :: ms, which_type p2 = some expected := by
      intro hall
      exact hne ((hall p hp).trans hw.symm)
    simp only [hw, if_neg hnall]

/-- Witness for C2 on the mixed template of the spec example. -/
theorem c2_style_conflict_amended_w :
    findPlaceholders "\x7b0\x7d\x7bname\x7d".toList = ["0".toList, "name".toList] ∧
    get_placeholders "\x7b0\x7d\x7bname\x7d".toList = none :=
  ⟨by decide,
    c2_style_conflict_amended "\x7b0\x7d\x7bname\x7d".toList "0".toList ["name".toList]
      (by decide) ⟨"name".toList, by decide, by decide⟩⟩

/-- Counterexample to C2 as stated: a conflict between indexed and named
and a conflict between named and an invalid token both produce the same
bare failure value, so the failure cannot name the two styles or the
offending token; and the structured-literal scan accepts the mixed
template, returning its token set instead of failing. -/
theorem c2_counterexample :
    get_placeholders "\x7b0\x7d\x7bname\x7d".toList = none ∧
    get_placeholders "\x7bname\x7d\x7b \x7d".toList = none ∧
    extract_required_params "\x7b0\x7d\x7bname\x7d".toList = ["0".toList, "name".toList] := by
  decide

/-- Whenever the CLI parse_params succeeds, the supplied parameter count
equals the required placeholder count. -/
theorem parse_params_ok_length (params ps : List (List Char)) (ty : Option Placeholder)
    (fs : List Char) (r : CliParsed) (h : parse_params params ps ty fs = .ok r) :
    params.length = ps.length := by
  unfold parse_params at h
  by_cases h1 : params = [] ∧ ps = []
  · rw [h1.1, h1.2]
  · rw [if_neg h1] at h
    by_cases h2 : (params = [] ∧ ps ≠ []) ∨ params.length ≠ ps.length
    · rw [if_pos h2] at h
      cases h
    · push_neg at h2
      exact h2.2

/-- C3: for a successful CLI scan, blank-style templates keep one required
slot per anonymous occurrence (the token list is exactly the occurrence
list), named and indexed styles collapse duplicate tokens (the token list
is the deduplication of the occurrence list), and a successful validation
always received exactly one parameter per required slot. -/
theorem c3_dedup_semantics (s : List Char) (ps : List (List Char)) (ty : Placeholder)
    (h : get_placeholders s = some (ps, some ty)) :
    (ty = Placeholder.blank → ps = findPlaceholders s) ∧
    (ty ≠ Placeholder.blank → ps = (findPlaceholders s).dedup) ∧
    (∀ params fs r, parse_params params ps (some ty) fs = .ok r →
      params.length = ps.length) := by
  have hmain : (ty = Placeholder.blank → ps = findPlaceholders s) ∧
      (ty ≠ Placeholder.blank → ps = (findPlaceholders s).dedup) := by
    unfold get_placeholders at h
    cases hf : findPlaceholders s with
    | nil =>
      rw [hf] at h
      simp at h
    | cons m ms =>
      rw [hf] at h
      cases hw : which_type m with
      | none => simp [hw] at h
      | some expected =>
        simp only [hw] at h
        by_cases hall : ∀ p ∈ m :: ms, which_type p = some expected
        · rw [if_pos hall] at h
          by_cases hb : expected = Placeholder.blank
          · rw [if_pos hb] at h
            simp only [Option.some.injEq, Prod.mk.injEq] at h
            obtain ⟨hps, hty⟩ := h
            subst hty
            constructor
            · intro _
              exact hps.symm
            · intro hn
              exact absurd hb hn
          · rw [if_neg hb] at h
            simp only [Option.some.injEq, Prod.mk.injEq] at h
            obtain ⟨hps, hty⟩ := h
            subst hty
            constructor
            · intro hbl
              exact absurd hbl hb
            · intro _
              exact hps.symm
        · rw [if_neg hall] at h
          cases h
  exact ⟨hmain.1, hmain.2, fun params fs r hr => parse_params_ok_length params ps _ fs r hr⟩

/-- Witness for C3: a duplicated named token collapses to one slot, two
anonymous tokens stay two slots, and a successful blank validation
received exactly two parameters. -/
theorem c3_dedup_semantics_w :
    get_placeholders "\x7ba\x7d and \x7ba\x7d".toList
      = some (["a".toList], some Placeholder.named) ∧
    ["a".toList] = (findPlaceholders "\x7ba\x7d and \x7ba\x7d".toList).dedup ∧
    get_placeholders "\x7b\x7d and \x7b\x7d".toList
      = some ([[], []], some Placeholder.blank) ∧
    [[], []] = findPlaceholders "\x7b\x7d and \x7b\x7d".toList ∧
    (["u".toList, "v".toList] : List (List Char)).length
      = ([[], []] : List (List Char)).length :=
  ⟨by decide,
    (c3_dedup_semantics "\x7ba\x7d and \x7ba\x7d".toList ["a".toList]
      Placeholder.named (by decide)).2.1 (by decide),
    by decide,
    (c3_dedup_semantics "\x7b\x7d and \x7b\x7d".toList [[], []]
      Placeholder.blank (by decide)).1 rfl,
    (c3_dedup_semantics "\x7b\x7d and \x7b\x7d".toList [[], []] Placeholder.blank
      (by decide)).2.2 ["u".toList, "v".toList] []
      (CliParsed.posList ["u".toList, "v".toList]) (by decide)⟩

/-- C4, corrected: for indexed and blank styles the CLI validation
succeeds exactly when the supplied count equals the required count, and a
mismatch is the count error whose payload names the needed count and the
required placeholder forms, not the actual count; the structured-literal
validation of a sequence rejects an empty input and a shortfall, naming
expected and actual counts, but lets any surplus pass. -/
theorem c4_count_amended :
    (∀ (params ps : List (List Char)) (fs : List Char) (ty : Placeholder),
      (ty = Placeholder.indexed ∨ ty = Placeholder.blank) → ps ≠ [] →
      ((∃ r, parse_params params ps (some ty) fs = .ok r) ↔ params.length = ps.length) ∧
      (params.length ≠ ps.length →
        parse_params params ps (some ty) fs
          = .error (ParseErr.countMismatch ps.length fs))) ∧
    (∀ (required : List (List Char)) (xs : List PyVal), required ≠ [] →
      (xs = [] → bean_inquiry_validate required (PyVal.list xs)
        = .error TyErr.noneProvided) ∧
      (xs ≠ [] → bean_inquiry_validate required (PyVal.list xs) =
        if xs.length < required.length then
          .error (TyErr.countShort required.length xs.length)
        else .ok ())) := by
  constructor
  · intro params ps fs ty hty hps
    have hnn : ¬ (some ty = some Placeholder.named) := by
      rcases hty with h | h <;> subst h <;> decide
    unfold parse_params
    have h1 : ¬ (params = [] ∧ ps = []) := fun hh => hps hh.2
    rw [if_neg h1]
    by_cases h2 : (params = [] ∧ ps ≠ []) ∨ params.length ≠ ps.length
    · rw [if_pos h2]
      have hlen : params.length ≠ ps.length := by
        rcases h2 with ⟨hp0, hq0⟩ | hl
        · rw [hp0]
          simp only [List.length_nil]
          intro hc
          exact hq0 (List.eq_nil_of_length_eq_zero hc.symm)
        · exact hl
      refine ⟨⟨?_, ?_⟩, ?_⟩
      · rintro ⟨r, hr⟩
        cases hr
      · intro hc
        exact absurd hc hlen
      · intro _
        rfl
    · rw [if_neg h2]
      push_neg at h2
      have hlen := h2.2
      rw [if_neg hnn]
      refine ⟨⟨?_, ?_⟩, ?_⟩
      · intro _
        exact hlen
      · intro _
        exact ⟨CliParsed.posList params, rfl⟩
      · intro hzz
        exact absurd hlen hzz
  · intro required xs hreq
    constructor
    · intro hx
      subst hx
      unfold bean_inquiry_validate
      rw [if_neg hreq]
      rfl
    · intro hx
      have htr : truthy (PyVal.list xs) = true := by
        simp [truthy, hx]
      unfold bean_inquiry_validate
      rw [if_neg hreq]
      rw [if_neg (show ¬ truthy (PyVal.list xs) = false by
        rw [htr]; exact fun hc => Bool.noConfusion hc)]

/-- Witness for C4: a three-element sequence against two blank slots is a
CLI count mismatch whose error carries the needed count two and the forms
text, and the structured-literal validation of a one-element sequence
against the two required slots of a two-blank template reports expected
two, actual one. -/
theorem c4_count_amended_w :
    parse_params ["x".toList, "y".toList, "z".toList] [[], []] (some Placeholder.blank)
      "\x7b\x7d, \x7b\x7d".toList
      = .error (ParseErr.countMismatch 2 "\x7b\x7d, \x7b\x7d".toList) ∧
    bean_inquiry_validate (extract_required_params "SELECT \x7b\x7d \x7b\x7d".toList)
      (PyVal.list [PyVal.str "p".toList])
      = .error (TyErr.countShort 2 1) :=
  ⟨(c4_count_amended.1 ["x".toList, "y".toList, "z".toList] [[], []]
      "\x7b\x7d, \x7b\x7d".toList Placeholder.blank (Or.inr rfl) (by decide)).2
      (by decide),
    ((c4_count_amended.2 (extract_required_params "SELECT \x7b\x7d \x7b\x7d".toList)
      [PyVal.str "p".toList] (by decide)).2 (List.cons_ne_nil _ _)).trans (by decide)⟩

/-- Counterexample to C4 as stated: the structured-literal variant lets a
three-element sequence pass validation against a template requiring
exactly two blank slots, so a surplus is not a fatal count error. -/
theorem c4_counterexample :
    bean_inquiry_validate (extract_required_params "SELECT \x7b\x7d \x7b\x7d".toList)
      (PyVal.list [PyVal.str "p".toList, PyVal.str "q".toList, PyVal.str "r".toList])
      = .ok () ∧
    (extract_required_params "SELECT \x7b\x7d \x7b\x7d".toList).length = 2 := by
  constructor
  · rfl
  · rfl

theorem lookupA_update (acc : List (List Char × List Char)) (k v x : List Char) :
    lookupA (updateAssoc acc k v) x = if k = x then some v else lookupA acc x := by
  induction acc with
  | nil => simp [updateAssoc, lookupA]
  | cons kv2 rest ih =>
    obtain ⟨k2, v2⟩ := kv2
    by_cases h2 : k2 = k
    · subst h2
      by_cases hx : k2 = x
      · subst hx
        simp [updateAssoc, lookupA]
      · simp [updateAssoc, lookupA, hx]
    · by_cases hx : k2 = x
      · subst hx
        have hkx : ¬ k = k2 := fun hh => h2 hh.symm
        simp [updateAssoc, lookupA, h2, hkx]
      · simp [updateAssoc, lookupA, h2, hx, ih]

theorem buildDict_unknown (pre : List (List Char)) (p : List Char) (suf : List (List Char))
    (ps : List (List Char)) (fs : List Char) (k v : List Char)
    (hpre : ∀ q ∈ pre, ∃ kv, splitOnceColon q = some kv ∧ kv.1 ∈ ps)
    (hsplit : splitOnceColon p = some (k, v)) (hk : k ∉ ps)
    (acc : List (List Char × List Char)) :
    buildDict (pre ++ p :: suf) ps fs acc = .error (ParseErr.unknownKey k fs) := by
  induction pre generalizing acc with
  | nil =>
    simp only [List.nil_append, buildDict, hsplit]
    rw [if_neg hk]
  | cons q pre2 ih =>
    obtain ⟨⟨k2, v2⟩, hq, hmem⟩ := hpre q (List.mem_cons_self q pre2)
    simp only [List.cons_append, buildDict, hq]
    rw [if_pos hmem]
    exact ih (fun x hx => hpre x (List.mem_cons_of_mem q hx)) _

theorem buildDict_ok (params ps : List (List Char)) (fs : List Char)
    (hall : ∀ q ∈ params, ∃ kv, splitOnceColon q = some kv ∧ kv.1 ∈ ps)
    (acc : List (List Char × List Char)) :
    ∃ d, buildDict params ps fs acc = .ok d ∧
      ∀ x, (lookupA d x).isSome = true ↔ ((lookupA acc x).isSome = true ∨
        x ∈ params.filterMap (fun p => Option.map Prod.fst (splitOnceColon p))) := by
  induction params generalizing acc with
  | nil =>
    refine ⟨acc, rfl, ?_⟩
    intro x
    simp
  | cons q rest ih =>
    obtain ⟨⟨k2, v2⟩, hq, hmem⟩ := hall q (List.mem_cons_self q rest)
    obtain ⟨d, hd, hdk⟩ := ih (fun x hx => hall x (List.mem_cons_of_mem q hx))
      (updateAssoc acc k2 v2)
    refine ⟨d, ?_, ?_⟩
    · simp only [buildDict, hq]
      rw [if_pos hmem]
      exact hd
    · intro x
      rw [hdk x, lookupA_update]
      simp only [List.filterMap_cons, hq, Option.map, List.mem_cons]
      by_cases hkx : k2 = x
      · subst hkx
        simp
      · rw [if_neg hkx]
        constructor
        · rintro (h | h)
          · exact Or.inl h
          · exact Or.inr (Or.inr h)
        · rintro (h | h | h)
          · exact Or.inl h
          · exact absurd h.symm hkx
          · exact Or.inr h

theorem buildDict_ok_inv (params ps : List (List Char)) (fs : List Char)
    (acc d : List (List Char × List Char))
    (h : buildDict params ps fs acc = .ok d) :
    ∀ q ∈ params, ∃ kv, splitOnceColon q = some kv ∧ kv.1 ∈ ps := by
  induction params generalizing acc with
  | nil =>
    intro q hq
    simp at hq
  | cons q rest ih =>
    intro x hx
    unfold buildDict at h
    cases hs : splitOnceColon q with
    | none =>
      simp only [hs] at h
      cases h
    | some kv =>
      obtain ⟨k2, v2⟩ := kv
      simp only [hs] at h
      by_cases hmem : k2 ∈ ps
      · rw [if_pos hmem] at h
        rcases List.mem_cons.mp hx with rfl | hx2
        · exact ⟨(k2, v2), hs, hmem⟩
        · exact ih _ h x hx2
      · rw [if_neg hmem] at h
        cases h

/-- C5, corrected: named-style CLI validation does check both directions
of key coverage, and succeeds exactly when every token splits on a colon
into a discovered key and every discovered name is covered; but the two
violations are never reported together: the first unrecognized key aborts
the loop immediately with an error naming that key and the full
placeholder-forms text, and the missing-key error carries only the full
placeholder-forms text, never the computed missing subset. -/
theorem c5_coverage_amended (ps params : List (List Char)) (fs : List Char)
    (hps : ps ≠ []) (hlen : params.length = ps.length) :
    ((∃ d, parse_params params ps (some Placeholder.named) fs = .ok (CliParsed.dict d)) ↔
      ((∀ p ∈ params, ∃ kv, splitOnceColon p = some kv ∧ kv.1 ∈ ps) ∧
        ∀ q ∈ ps, q ∈ params.filterMap (fun p => Option.map Prod.fst (splitOnceColon p)))) ∧
    (∀ pre p suf k v, params = pre ++ p :: suf →
      (∀ q ∈ pre, ∃ kv, splitOnceColon q = some kv ∧ kv.1 ∈ ps) →
      splitOnceColon p = some (k, v) → k ∉ ps →
      parse_params params ps (some Placeholder.named) fs
        = .error (ParseErr.unknownKey k fs)) ∧
    ((∀ p ∈ params, ∃ kv, splitOnceColon p = some kv ∧ kv.1 ∈ ps) →
      (∃ q, q ∈ ps ∧ q ∉ params.filterMap (fun p => Option.map Prod.fst (splitOnceColon p))) →
      parse_params params ps (some Placeholder.named) fs
        = .error (ParseErr.missingKeys fs)) := by
  have hred : ∀ z : Except ParseErr CliParsed,
      parse_params params ps (some Placeholder.named) fs = z ↔
      ((match buildDict params ps fs [] with
        | .error e => Except.error e
        | .ok d =>
          if ∀ q ∈ ps, (lookupA d q).isSome then Except.ok (CliParsed.dict d)
          else Except.error (ParseErr.missingKeys fs)) = z) := by
    intro z
    unfold parse_params
    have h1 : ¬ (params = [] ∧ ps = []) := fun hh => hps hh.2
    have h2 : ¬ ((params = [] ∧ ps ≠ []) ∨ params.length ≠ ps.length) := by
      rintro (⟨hp0, _⟩ | hl)
      · rw [hp0] at hlen
        exact hps (List.eq_nil_of_length_eq_zero hlen.symm)
      · exact hl hlen
    rw [if_neg h1, if_neg h2, if_pos rfl]
  refine ⟨⟨?_, ?_⟩, ?_, ?_⟩
  · rintro ⟨d, hd⟩
    rw [hred] at hd
    cases hb : buildDict params ps fs [] with
    | error e =>
      simp only [hb] at hd
      cases hd
    | ok d0 =>
      simp only [hb] at hd
      have hall := buildDict_ok_inv params ps fs [] d0 hb
      refine ⟨hall, ?_⟩
      by_cases hcov : ∀ q ∈ ps, (lookupA d0 q).isSome
      · obtain ⟨d1, hd1, hk1⟩ := buildDict_ok params ps fs hall []
        have hdd : d0 = d1 := by
          have := hb.symm.trans hd1
          injection this
        intro q hq
        have hqs := hcov q hq
        rcases (hk1 q).mp (by rw [← hdd]; exact hqs) with h | h
        · simp [lookupA] at h
        · exact h
      · rw [if_neg hcov] at hd
        cases hd
  · rintro ⟨hall, hcov⟩
    obtain ⟨d1, hd1, hk1⟩ := buildDict_ok params ps fs hall []
    refine ⟨d1, ?_⟩
    rw [hred]
    simp only [hd1]
    rw [if_pos ?_]
    intro q hq
    exact (hk1 q).mpr (Or.inr (hcov q hq))
  · intro pre p suf k v hparams hpre hsplit hk
    rw [hred]
    subst hparams
    have hbe := buildDict_unknown pre p suf ps fs k v hpre hsplit hk []
    simp only [hbe]
  · rintro hall ⟨q, hq, hnq⟩
    obtain ⟨d1, hd1, hk1⟩ := buildDict_ok params ps fs hall []
    rw [hred]
    simp only [hd1]
    rw [if_neg ?_]
    intro hcov
    rcases (hk1 q).mp (hcov q hq) with h | h
    · simp [lookupA] at h
    · exact hnq h

/-- Witness for C5 on the spec coverage-law example: a template requiring
a and b with tokens a and c fails with the unknown-key error naming c, and
a correct pair of tokens succeeds. -/
theorem c5_coverage_amended_w :
    parse_params ["a:x".toList, "c:z".toList] ["a".toList, "b".toList]
      (some Placeholder.named) "\x7ba\x7d, \x7bb\x7d".toList
      = .error (ParseErr.unknownKey "c".toList "\x7ba\x7d, \x7bb\x7d".toList) ∧
    (∃ d, parse_params ["b:y".toList, "a:x".toList] ["a".toList, "b".toList]
      (some Placeholder.named) "\x7ba\x7d, \x7bb\x7d".toList = .ok (CliParsed.dict d)) :=
  ⟨(c5_coverage_amended ["a".toList, "b".toList] ["a:x".toList, "c:z".toList]
      "\x7ba\x7d, \x7bb\x7d".toList (by decide) (by decide)).2.1
      ["a:x".toList] "c:z".toList [] "c".toList "z".toList (by decide)
      (by
        intro q hq
        rw [List.mem_singleton] at hq
        subst hq
        exact ⟨("a".toList, "x".toList), by decide, by decide⟩)
      (by decide) (by decide),
    (c5_coverage_amended ["a".toList, "b".toList] ["b:y".toList, "a:x".toList]
      "\x7ba\x7d, \x7bb\x7d".toList (by decide) (by decide)).1.mpr
      ⟨by
        intro p hp
        rcases List.mem_cons.mp hp with rfl | hp2
        · exact ⟨("b".toList, "y".toList), by decide, by decide⟩
        · rw [List.mem_singleton] at hp2
          subst hp2
          exact ⟨("a".toList, "x".toList), by decide, by decide⟩,
        by decide⟩⟩

/-- Counterexample to C5 as stated: with placeholders a and b, the token
lists with unknown key c but different missing names (b missing in the
first run, a missing in the second) produce the identical error value, so
the error cannot be reporting the sorted missing names together with the
unrecognized keys; the loop stops at the first unrecognized key. -/
theorem c5_counterexample :
    parse_params ["a:x".toList, "c:z".toList] ["a".toList, "b".toList]
      (some Placeholder.named) "\x7ba\x7d, \x7bb\x7d".toList
      = .error (ParseErr.unknownKey "c".toList "\x7ba\x7d, \x7bb\x7d".toList) ∧
    parse_params ["b:y".toList, "c:z".toList] ["a".toList, "b".toList]
      (some Placeholder.named) "\x7ba\x7d, \x7bb\x7d".toList
      = .error (ParseErr.unknownKey "c".toList "\x7ba\x7d, \x7bb\x7d".toList) := by
  decide

theorem scanPh_no_open {t : List Char} (hs : ∀ c ∈ t, c ≠ '\x7b') :
    scanPh t none = [] := by
  have := scanPh_append_lit hs []
  rwa [List.append_nil] at this

theorem subNonEmpty_no_open {t : List Char} (hs : ∀ c ∈ t, c ≠ '\x7b') :
    subNonEmpty t none = t := by
  induction t with
  | nil => rfl
  | cons c rest ih =>
    have hc : c ≠ '\x7b' := hs c (List.mem_cons_self c rest)
    simp only [subNonEmpty, if_neg hc]
    rw [ih (fun x hx => hs x (List.mem_cons_of_mem c hx))]

theorem countPairsGo_no_open {t : List Char} (hs : ∀ c ∈ t, c ≠ '\x7b') :
    countPairsGo t false = 0 := by
  induction t with
  | nil => rfl
  | cons c rest ih =>
    have hc : c ≠ '\x7b' := hs c (List.mem_cons_self c rest)
    simp only [countPairsGo, if_neg hc]
    exact ih (fun x hx => hs x (List.mem_cons_of_mem c hx))

theorem extract_required_params_no_open {t : List Char} (hs : ∀ c ∈ t, c ≠ '\x7b') :
    extract_required_params t = [] := by
  unfold extract_required_params
  rw [show findPlaceholders t = [] from scanPh_no_open hs]
  rw [subNonEmpty_no_open hs]
  unfold countBracePairs at *
  rw [countPairsGo_no_open hs]
  rfl

theorem fmtMapGo_lit (d : List (List Char × List Char)) {s : List Char}
    (hs : ∀ c ∈ s, c ≠ '\x7b' ∧ c ≠ '\x7d') (u : List Char) :
    fmtMapGo d (s ++ u) FmtSt.outside
      = Option.map (fun r => s ++ r) (fmtMapGo d u FmtSt.outside) := by
  induction s with
  | nil =>
    cases h : fmtMapGo d u FmtSt.outside <;> simp [h]
  | cons c s2 ih =>
    have hc := hs c (List.mem_cons_self c s2)
    simp only [List.cons_append, fmtMapGo, if_neg hc.1, if_neg hc.2, List.append_eq]
    rw [ih (fun x hx => hs x (List.mem_cons_of_mem c hx))]
    cases h : fmtMapGo d u FmtSt.outside <;> simp [h]

theorem pyFormatMap_no_braces (d : List (List Char × List Char)) {t : List Char}
    (ht : ∀ c ∈ t, c ≠ '\x7b' ∧ c ≠ '\x7d') :
    pyFormatMap d t = some t := by
  unfold pyFormatMap
  have := fmtMapGo_lit d ht []
  rw [List.append_nil] at this
  rw [this]
  simp [fmtMapGo]

theorem fmtPosGo_lit (args : List (List Char)) {s : List Char}
    (hs : ∀ c ∈ s, c ≠ '\x7b' ∧ c ≠ '\x7d') (u : List Char) (m : NumMode) :
    fmtPosGo args (s ++ u) FmtSt.outside m
      = Option.map (fun r => s ++ r) (fmtPosGo args u FmtSt.outside m) := by
  induction s with
  | nil =>
    cases h : fmtPosGo args u FmtSt.outside m <;> simp [h]
  | cons c s2 ih =>
    have hc := hs c (List.mem_cons_self c s2)
    simp only [List.cons_append, fmtPosGo, if_neg hc.1, if_neg hc.2, List.append_eq]
    rw [ih (fun x hx => hs x (List.mem_cons_of_mem c hx))]
    cases h : fmtPosGo args u FmtSt.outside m <;> simp [h]

theorem pyFormatPos_no_braces (args : List (List Char)) {t : List Char}
    (ht : ∀ c ∈ t, c ≠ '\x7b' ∧ c ≠ '\x7d') :
    pyFormatPos args t = some t := by
  unfold pyFormatPos
  have := fmtPosGo_lit args ht [] NumMode.unset
  rw [List.append_nil] at this
  rw [this]
  simp [fmtPosGo]

/-- C6, corrected: for a brace-free template, which both variants scan as
requiring zero placeholders, the structured-literal variant indeed ignores
any non-empty parameters (its validation passes everything and its
substitution returns the template unchanged, keyword expansion permitting),
but the CLI variant rejects any non-empty parameter list against zero
placeholders with the count error naming zero needed parameters. -/
theorem c6_zero_placeholders_amended (t : List Char)
    (hnb : ∀ c ∈ t, c ≠ '\x7b' ∧ c ≠ '\x7d') :
    get_placeholders t = some ([], none) ∧
    (∀ (params : List (List Char)) ty fs, params ≠ [] →
      parse_params params [] ty fs = .error (ParseErr.countMismatch 0 fs)) ∧
    extract_required_params t = [] ∧
    (∀ parsed, bean_inquiry_validate (extract_required_params t) parsed = .ok ()) ∧
    (∀ parsed, (∀ kvs, parsed = PyVal.dict kvs → ∃ d0, typerDictAssoc kvs = some d0) →
      typerSubstitute t parsed = some t) := by
  have hopen : ∀ c ∈ t, c ≠ '\x7b' := fun c hc => (hnb c hc).1
  have hext : extract_required_params t = [] := extract_required_params_no_open hopen
  refine ⟨?_, ?_, hext, ?_, ?_⟩
  · unfold get_placeholders
    rw [show findPlaceholders t = [] from scanPh_no_open hopen]
  · intro params ty fs hparams
    unfold parse_params
    rw [if_neg (fun hh => hparams hh.1)]
    rw [if_pos (Or.inr (by
      simp only [List.length_nil]
      intro h0
      exact hparams (List.eq_nil_of_length_eq_zero h0)))]
    rfl
  · intro parsed
    rw [hext]
    rfl
  · intro parsed hdict
    unfold typerSubstitute
    by_cases htr : truthy parsed = true
    · rw [if_pos htr]
      cases parsed with
      | str s => exact pyFormatPos_no_braces [s] hnb
      | list xs => exact pyFormatPos_no_braces (xs.map pyFormatArg) hnb
      | dict kvs =>
        obtain ⟨d0, hd0⟩ := hdict kvs rfl
        show (match typerDictAssoc kvs with
          | some d => pyFormatMap d t
          | none => none) = some t
        rw [hd0]
        exact pyFormatMap_no_braces d0 hnb
      | intV n => rfl
      | boolV b => rfl
      | noneV => rfl
      | floatRaw s => rfl
      | setV xs => rfl
    · rw [if_neg htr]

/-- Witness for C6: a brace-free query with a non-empty string parameter
passes the structured-literal validation, is returned unchanged by its
substitution, and is a CLI count error. -/
theorem c6_zero_placeholders_amended_w :
    get_placeholders "SELECT 1".toList = some ([], none) ∧
    parse_params ["x".toList] [] none [] = .error (ParseErr.countMismatch 0 []) ∧
    bean_inquiry_validate (extract_required_params "SELECT 1".toList)
      (PyVal.str "x".toList) = .ok () ∧
    typerSubstitute "SELECT 1".toList (PyVal.str "x".toList) = some "SELECT 1".toList :=
  ⟨(c6_zero_placeholders_amended "SELECT 1".toList (by decide)).1,
    (c6_zero_placeholders_amended "SELECT 1".toList (by decide)).2.1
      ["x".toList] none [] (List.cons_ne_nil _ _),
    (c6_zero_placeholders_amended "SELECT 1".toList (by decide)).2.2.2.1
      (PyVal.str "x".toList),
    (c6_zero_placeholders_amended "SELECT 1".toList (by decide)).2.2.2.2
      (PyVal.str "x".toList) (fun kvs h => PyVal.noConfusion h)⟩

/-- Counterexample to C6 as stated: the CLI variant, given the
zero-placeholder template and one extra parameter, reports the count
error instead of silently ignoring the parameter. -/
theorem c6_counterexample :
    get_placeholders "SELECT 1".toList = some ([], none) ∧
    parse_params ["x".toList] [] none []
      = .error (ParseErr.countMismatch 0 []) := by
  decide

/-- C7, corrected: materialization does try the strict json parse first
and falls back to the permissive literal parse on its failure, but when
both fail the echoed fatal error carries the failure detail of the second,
permissive parse, not of the original strict parse. -/
theorem c7_parse_chain_amended (s : List Char) (hs : s ≠ []) :
    (∀ v, json_loads s = .ok v → bq_parse_params s = .ok v) ∧
    (∀ e1 v, json_loads s = .error e1 → ast_literal_eval s = .ok v →
      bq_parse_params s = .ok v) ∧
    (∀ e1 e2, json_loads s = .error e1 → ast_literal_eval s = .error e2 →
      bq_parse_params s = .error (PErrDetail.fromAst e2)) := by
  refine ⟨?_, ?_, ?_⟩
  · intro v hv
    unfold bq_parse_params
    rw [if_neg hs]
    simp only [hv]
  · intro e1 v h1 h2
    unfold bq_parse_params
    rw [if_neg hs]
    simp only [h1, h2]
  · intro e1 e2 h1 h2
    unfold bq_parse_params
    rw [if_neg hs]
    simp only [h1, h2]

/-- Witness for C7: an input both parsers reject is echoed with the detail
of the literal parse. -/
theorem c7_parse_chain_amended_w :
    json_loads "\x7b1:!\x7d".toList = .error (JsonErr.decodeError 1) ∧
    ast_literal_eval "\x7b1:!\x7d".toList = .error (AstErr.evalError 3) ∧
    bq_parse_params "\x7b1:!\x7d".toList
      = .error (PErrDetail.fromAst (AstErr.evalError 3)) :=
  ⟨rfl, rfl,
    (c7_parse_chain_amended "\x7b1:!\x7d".toList (by decide)).2.2
      (JsonErr.decodeError 1) (AstErr.evalError 3) rfl rfl⟩

/-- Counterexample to C7 as stated: on this doubly rejected input the
strict parse fails at position one and the permissive parse at position
three, and the reported error carries the permissive detail, which differs
from the original strict detail. -/
theorem c7_counterexample :
    json_loads "\x7b1:!\x7d".toList = .error (JsonErr.decodeError 1) ∧
    ast_literal_eval "\x7b1:!\x7d".toList = .error (AstErr.evalError 3) ∧
    bq_parse_params "\x7b1:!\x7d".toList
      = .error (PErrDetail.fromAst (AstErr.evalError 3)) ∧
    PErrDetail.fromAst (AstErr.evalError 3) ≠ PErrDetail.fromJson (JsonErr.decodeError 1) :=
  ⟨rfl, rfl, rfl, by decide⟩

theorem splitOnceColon_no_colon {t : List Char} (ht : ':' ∉ t) :
    splitOnceColon t = none := by
  induction t with
  | nil => rfl
  | cons c rest ih =>
    have hc : c ≠ ':' := fun hh => ht (hh ▸ List.mem_cons_self c rest)
    simp only [splitOnceColon, if_neg hc]
    rw [ih (fun hx => ht (List.mem_cons_of_mem c hx))]

theorem splitOnceColon_first {k : List Char} (hk : ':' ∉ k) (v : List Char) :
    splitOnceColon (k ++ ':' :: v) = some (k, v) := by
  induction k with
  | nil => rfl
  | cons c rest ih =>
    have hc : c ≠ ':' := fun hh => hk (hh ▸ List.mem_cons_self c rest)
    simp only [List.cons_append, splitOnceColon, if_neg hc, List.append_eq]
    rw [ih (fun hx => hk (List.mem_cons_of_mem c hx))]

/-- C8, corrected: a named CLI token is split at its first colon only,
the remainder staying in the value, so account:Assets:Cash materializes to
the mapping entry from account to Assets:Cash; a token without a colon is
a fatal parse error, but that error is a fixed message that does not name
the offending token. -/
theorem c8_colon_split_amended :
    (∀ (k v fs : List Char), ':' ∉ k →
      parse_params [k ++ ':' :: v] [k] (some Placeholder.named) fs
        = .ok (CliParsed.dict [(k, v)])) ∧
    (∀ (t : List Char) (ps : List (List Char)) (fs : List Char), ':' ∉ t →
      ps.length = 1 →
      parse_params [t] ps (some Placeholder.named) fs
        = .error ParseErr.namedNoColon) := by
  constructor
  · intro k v fs hk
    unfold parse_params
    rw [if_neg (fun hh => List.cons_ne_nil _ _ hh.1)]
    rw [if_neg (by
      rintro (⟨hp0, _⟩ | hl)
      · exact List.cons_ne_nil _ _ hp0
      · exact hl rfl)]
    rw [if_pos rfl]
    have hb : buildDict [k ++ ':' :: v] [k] fs [] = .ok [(k, v)] := by
      simp only [buildDict, splitOnceColon_first hk]
      rw [if_pos (List.mem_singleton.mpr rfl)]
      rfl
    simp only [hb]
    rw [if_pos (by
      intro q hq
      rw [List.mem_singleton] at hq
      subst hq
      simp [lookupA])]
  · intro t ps fs ht hl
    unfold parse_params
    rw [if_neg (fun hh => List.cons_ne_nil _ _ hh.1)]
    rw [if_neg (by
      rintro (⟨hp0, _⟩ | hlen)
      · exact List.cons_ne_nil _ _ hp0
      · exact hlen (by rw [hl]; rfl))]
    rw [if_pos rfl]
    have hb : buildDict [t] ps fs [] = .error ParseErr.namedNoColon := by
      simp only [buildDict, splitOnceColon_no_colon ht]
    simp only [hb]

/-- Witness for C8 on the spec scenario: the token account:Assets:Cash
materializes to the mapping entry from account to Assets:Cash, the
resolved query substitutes that value, and a colon-free token errs. -/
theorem c8_colon_split_amended_w :
    parse_params ["account:Assets:Cash".toList] ["account".toList]
      (some Placeholder.named) []
      = .ok (CliParsed.dict [("account".toList, "Assets:Cash".toList)]) ∧
    pyFormatMap [("account".toList, "Assets:Cash".toList)]
      "SELECT * WHERE account = \x7baccount\x7d".toList
      = some "SELECT * WHERE account = Assets:Cash".toList ∧
    parse_params ["ax".toList] ["a".toList] (some Placeholder.named) []
      = .error ParseErr.namedNoColon :=
  ⟨c8_colon_split_amended.1 "account".toList "Assets:Cash".toList [] (by decide),
    by decide,
    c8_colon_split_amended.2 "ax".toList ["a".toList] [] (by decide) (by decide)⟩

/-- Counterexample to C8 as stated: two different colon-free tokens
produce the identical error value, a constant with no payload, so the
parse error does not name the offending token. -/
theorem c8_counterexample :
    parse_params ["ax".toList] ["a".toList] (some Placeholder.named) "\x7ba\x7d".toList
      = .error ParseErr.namedNoColon ∧
    parse_params ["qz".toList] ["a".toList] (some Placeholder.named) "\x7ba\x7d".toList
      = .error ParseErr.namedNoColon := by
  decide

/-- C10: the structured-literal validation step, handed a mapping against
a template with one required placeholder, evaluates the subtraction of a
set from a list, which raises an uncaught TypeError instead of producing
a success or a missing-key diagnostic. -/
theorem c10_validation_type_error :
    extract_required_params "\x7ba\x7d".toList = ["a".toList] ∧
    truthy (PyVal.dict [(PyVal.str "a".toList, PyVal.str "x".toList)]) = true ∧
    bean_inquiry_validate (extract_required_params "\x7ba\x7d".toList)
      (PyVal.dict [(PyVal.str "a".toList, PyVal.str "x".toList)])
      = .error TyErr.uncaughtTypeError :=
  ⟨by decide, rfl, rfl⟩

theorem pynameCore_chars {s : List Char} (h : pynameCore s = true) :
    ∀ c ∈ s, isPyAlnum c = true := by
  obtain ⟨c0, t, rfl, ha⟩ := pynameCore_head h
  intro c hc
  rcases List.mem_cons.mp hc with rfl | hc2
  · simp [isPyAlnum, ha]
  · simp only [pynameCore, Bool.and_eq_true, List.all_eq_true] at h
    exact h.2 c hc2

theorem pyname_chars {s : List Char} (h : valid_pyname s = true) :
    ∀ c ∈ s, isPyAlnum c = true ∨ c = '\n' := by
  unfold valid_pyname withDollarNL at h
  rw [Bool.or_eq_true] at h
  rcases h with h | h
  · intro c hc
    exact Or.inl (pynameCore_chars h c hc)
  · split at h
    case isTrue hL =>
      intro c hc
      have hsplit := List.dropLast_append_getLast? _ hL
      rw [← hsplit] at hc
      rcases List.mem_append.mp hc with hc2 | hc2
      · exact Or.inl (pynameCore_chars h c hc2)
      · rw [List.mem_singleton] at hc2
        exact Or.inr hc2
    case isFalse => exact absurd h Bool.false_ne_true

theorem pyAlnumNL_not_special {c : Char} (h : isPyAlnum c = true ∨ c = '\n') :
    c ≠ ':' ∧ c ≠ '!' ∧ c ≠ '\x7b' ∧ c ≠ '\x7d' := by
  refine ⟨?_, ?_, ?_, ?_⟩ <;> rintro rfl <;> revert h <;> decide

theorem pyname_not_all_digits {n : List Char} (h : valid_pyname n = true) :
    ¬ n.all isDigitB = true := by
  intro hall
  obtain ⟨c, hc, ha⟩ := withDollarNL_head (fun u hu => pynameCore_head hu) h
  have hmem : c ∈ n := by
    cases n with
    | nil => cases hc
    | cons a t =>
      have : a = c := by injection hc
      rw [← this]
      exact List.mem_cons_self a t
  have hd := List.all_eq_true.mp hall c hmem
  rw [isPyAlpha_not_digit c ha] at hd
  exact Bool.noConfusion hd

theorem pyname_ne_nil {n : List Char} (h : valid_pyname n = true) : n ≠ [] := by
  obtain ⟨c, hc, _⟩ := withDollarNL_head (fun u hu => pynameCore_head hu) h
  intro h0
  rw [h0] at hc
  cases hc

theorem pyname_no_colon {n : List Char} (h : valid_pyname n = true) : ':' ∉ n :=
  fun hm => (pyAlnumNL_not_special (pyname_chars h ':' hm)).1 rfl

theorem lookupField_of_pyname (d : List (List Char × List Char)) {tok : List Char}
    (hp : valid_pyname tok = true) :
    lookupField d tok = lookupA d tok := by
  have hchars := pyname_chars hp
  unfold lookupField
  rw [if_neg (pyname_ne_nil hp)]
  rw [if_neg ?hany, if_neg (pyname_not_all_digits hp)]
  case hany =>
    intro hany
    rw [List.any_eq_true] at hany
    obtain ⟨c, hcmem, hcp⟩ := hany
    have hns := pyAlnumNL_not_special (hchars c hcmem)
    simp only [Bool.or_eq_true, decide_eq_true_eq] at hcp
    rcases hcp with (h1 | h1) | h1
    · exact hns.2.2.1 h1
    · exact hns.1 h1
    · exact hns.2.1 h1

theorem fmtMapGo_field (d : List (List Char × List Char)) {t : List Char}
    (ht : '\x7d' ∉ t) (u acc : List Char) :
    fmtMapGo d (t ++ '\x7d' :: u) (FmtSt.inField acc)
      = match lookupField d (acc ++ t) with
        | some v => Option.map (fun r => v ++ r) (fmtMapGo d u FmtSt.outside)
        | none => none := by
  induction t generalizing acc with
  | nil =>
    rw [List.append_nil]
    rfl
  | cons c t2 ih =>
    have hc : c ≠ '\x7d' := fun hh => ht (hh ▸ List.mem_cons_self c t2)
    simp only [List.cons_append, fmtMapGo, if_neg hc, List.append_eq]
    rw [ih (fun hx => ht (List.mem_cons_of_mem c hx)) (acc ++ [c])]
    simp [List.append_assoc]

theorem fmtMapGo_render (d : List (List Char × List Char)) {segs : List Seg}
    (hok : segsOK segs = true)
    (hgood : ∀ tok ∈ phToks segs, tok ≠ [] ∧ lookupField d tok = lookupA d tok ∧
      (lookupA d tok).isSome = true) :
    fmtMapGo d (render segs) FmtSt.outside = some (renderWith d segs) := by
  induction segs with
  | nil => rfl
  | cons sg rest ih =>
    have hsg : segOK sg = true := by
      simp only [segsOK, List.all_cons, Bool.and_eq_true] at hok
      exact hok.1
    have hrest : segsOK rest = true := by
      simp only [segsOK, List.all_cons, Bool.and_eq_true] at hok
      exact hok.2
    cases sg with
    | lit s =>
      have hnm := segChars_notMem hsg
      have hs : ∀ c ∈ s, c ≠ '\x7b' ∧ c ≠ '\x7d' :=
        fun c hc => ⟨fun he => hnm.1 (he ▸ hc), fun he => hnm.2 (he ▸ hc)⟩
      have hgood2 : ∀ tok ∈ phToks rest, tok ≠ [] ∧ lookupField d tok = lookupA d tok ∧
          (lookupA d tok).isSome = true := fun tok htok => hgood tok htok
      show fmtMapGo d (s ++ render rest) FmtSt.outside
        = some (s ++ renderWith d rest)
      rw [fmtMapGo_lit d hs (render rest), ih hrest hgood2]
      rfl
    | ph t =>
      have hnm := segChars_notMem hsg
      have hgt := hgood t (by
        unfold phToks
        rw [List.mem_filterMap]
        exact ⟨Seg.ph t, List.mem_cons_self _ _, rfl⟩)
      have hgood2 : ∀ tok ∈ phToks rest, tok ≠ [] ∧ lookupField d tok = lookupA d tok ∧
          (lookupA d tok).isSome = true := by
        intro tok htok
        refine hgood tok ?_
        unfold phToks at htok ⊢
        rw [List.mem_filterMap] at htok ⊢
        obtain ⟨sg2, hsg2, hsg2e⟩ := htok
        exact ⟨sg2, List.mem_cons_of_mem _ hsg2, hsg2e⟩
      obtain ⟨v, hv⟩ := Option.isSome_iff_exists.mp hgt.2.2
      cases ht0 : t with
      | nil => exact absurd ht0 hgt.1
      | cons c t2 =>
        subst ht0
        have hcb : c ≠ '\x7b' ∧ c ≠ '\x7d' :=
          ⟨fun he => hnm.1 (he ▸ List.mem_cons_self c t2),
            fun he => hnm.2 (he ▸ List.mem_cons_self c t2)⟩
        show fmtMapGo d (('\x7b' :: ((c :: t2) ++ ['\x7d'])) ++ render rest)
          FmtSt.outside = _
        have harr : ('\x7b' :: ((c :: t2) ++ ['\x7d'])) ++ render rest
            = '\x7b' :: c :: (t2 ++ '\x7d' :: render rest) := by simp
        rw [harr]
        show fmtMapGo d ('\x7b' :: c :: (t2 ++ '\x7d' :: render rest)) FmtSt.outside = _
        simp only [fmtMapGo, if_pos rfl, if_neg hcb.1, if_neg hcb.2]
        rw [fmtMapGo_field d (fun hx => hnm.2 (List.mem_cons_of_mem c hx))
          (render rest) [c]]
        have hfield : lookupA d (c :: t2) = some v := hv
        rw [show ([c] ++ t2 : List Char) = c :: t2 from rfl, hgt.2.1, hfield]
        rw [ih hrest hgood2]
        show some (v ++ renderWith d rest) = _
        unfold renderWith
        simp only [List.map_cons, List.flatten_cons, hfield]
        rfl

theorem get_placeholders_nonblank {q : List Char} {l : List (List Char)} {st : Placeholder}
    (hfind : findPlaceholders q = l) (hne : l ≠ [])
    (hall : ∀ p ∈ l, which_type p = some st) (hst : st ≠ Placeholder.blank) :
    get_placeholders q = some (l.dedup, some st) := by
  unfold get_placeholders
  rw [hfind]
  cases l with
  | nil => exact absurd rfl hne
  | cons m ms =>
    have hm := hall m (List.mem_cons_self m ms)
    simp only [hm]
    rw [if_pos hall, if_neg hst]

/-- C1: for every well-formed template whose placeholder occurrences are
exactly the two distinct identifiers na and nb (each occurring at least
once) and every pair of values supplied through the CLI tokens, the scan
classifies the template as named with the deduplicated token set,
validation succeeds producing the mapping from na and nb to the two
values, and substitution returns the template with every occurrence of a
placeholder replaced by the value of its name and all literal text kept
verbatim. -/
theorem c1_named_round_trip (segs : List Seg) (na nb va vb fs : List Char)
    (hok : segsOK segs = true)
    (hna : valid_pyname na = true) (hnb : valid_pyname nb = true)
    (hne : na ≠ nb)
    (hsub : ∀ tok ∈ phToks segs, tok = na ∨ tok = nb)
    (hmema : na ∈ phToks segs) (hmemb : nb ∈ phToks segs) :
    ∃ ps d,
      get_placeholders (render segs) = some (ps, some Placeholder.named) ∧
      ps = (phToks segs).dedup ∧
      parse_params [na ++ ':' :: va, nb ++ ':' :: vb] ps (some Placeholder.named) fs
        = .ok (CliParsed.dict d) ∧
      lookupA d na = some va ∧ lookupA d nb = some vb ∧
      cliSubstitute (render segs) (CliParsed.dict d)
        = some ((segs.map (fun sg => match sg with
            | Seg.lit s => s
            | Seg.ph t => if t = na then va else vb)).flatten) := by
  have hfind := findPlaceholders_render hok
  have hallnamed : ∀ p ∈ phToks segs, which_type p = some Placeholder.named := by
    intro p hp
    rcases hsub p hp with rfl | rfl
    · unfold which_type
      rw [if_pos hna]
    · unfold which_type
      rw [if_pos hnb]
  have hne0 : phToks segs ≠ [] := List.ne_nil_of_mem hmema
  have hget := get_placeholders_nonblank hfind hne0 hallnamed (by decide)
  set ps := (phToks segs).dedup with hpsdef
  have hps_mem : ∀ x, x ∈ ps ↔ (x = na ∨ x = nb) := by
    intro x
    rw [hpsdef, List.mem_dedup]
    constructor
    · intro hx
      exact hsub x hx
    · rintro (rfl | rfl)
      exacts [hmema, hmemb]
  have hlenps : ps.length = 2 := by
    have hnd := List.nodup_dedup (phToks segs)
    have hfs : ps.toFinset = {na, nb} := by
      ext x
      simp only [List.mem_toFinset, Finset.mem_insert, Finset.mem_singleton]
      exact hps_mem x
    have hcard := List.toFinset_card_of_nodup (l := ps) hnd
    rw [hfs, Finset.card_pair hne] at hcard
    exact hcard.symm
  have hca : ':' ∉ na := pyname_no_colon hna
  have hcb : ':' ∉ nb := pyname_no_colon hnb
  have hmema2 : na ∈ ps := (hps_mem na).mpr (Or.inl rfl)
  have hmemb2 : nb ∈ ps := (hps_mem nb).mpr (Or.inr rfl)
  have hbd : buildDict [na ++ ':' :: va, nb ++ ':' :: vb] ps fs []
      = .ok [(na, va), (nb, vb)] := by
    simp only [buildDict, splitOnceColon_first hca, splitOnceColon_first hcb]
    rw [if_pos hmema2, if_pos hmemb2]
    simp [updateAssoc, hne]
  have hlook_a : lookupA [(na, va), (nb, vb)] na = some va := by
    simp [lookupA]
  have hlook_b : lookupA [(na, va), (nb, vb)] nb = some vb := by
    simp [lookupA, hne]
  have hpp : parse_params [na ++ ':' :: va, nb ++ ':' :: vb] ps
      (some Placeholder.named) fs = .ok (CliParsed.dict [(na, va), (nb, vb)]) := by
    unfold parse_params
    rw [if_neg (fun hh => List.cons_ne_nil _ _ hh.1)]
    rw [if_neg (by
      rintro (⟨h0, _⟩ | hl)
      · exact List.cons_ne_nil _ _ h0
      · exact hl (by rw [hlenps]; rfl))]
    rw [if_pos rfl]
    simp only [hbd]
    rw [if_pos (by
      intro q hq
      rcases (hps_mem q).mp hq with rfl | rfl
      · rw [hlook_a]
        rfl
      · rw [hlook_b]
        rfl)]
  have hgood : ∀ tok ∈ phToks segs, tok ≠ [] ∧
      lookupField [(na, va), (nb, vb)] tok = lookupA [(na, va), (nb, vb)] tok ∧
      (lookupA [(na, va), (nb, vb)] tok).isSome = true := by
    intro tok htok
    rcases hsub tok htok with rfl | rfl
    · exact ⟨pyname_ne_nil hna, lookupField_of_pyname _ hna, by rw [hlook_a]; rfl⟩
    · exact ⟨pyname_ne_nil hnb, lookupField_of_pyname _ hnb, by rw [hlook_b]; rfl⟩
  have hfmt := fmtMapGo_render [(na, va), (nb, vb)] hok hgood
  have hrw : renderWith [(na, va), (nb, vb)] segs
      = (segs.map (fun sg => match sg with
          | Seg.lit s => s
          | Seg.ph t => if t = na then va else vb)).flatten := by
    unfold renderWith
    congr 1
    apply List.map_congr_left
    intro sg hsg
    cases sg with
    | lit s => rfl
    | ph t =>
      have htok : t ∈ phToks segs := by
        unfold phToks
        rw [List.mem_filterMap]
        exact ⟨Seg.ph t, hsg, rfl⟩
      show (lookupA [(na, va), (nb, vb)] t).getD []
        = if t = na then va else vb
      rcases hsub t htok with rfl | rfl
      · rw [if_pos rfl, hlook_a]
        rfl
      · rw [if_neg (fun hh => hne hh.symm), hlook_b]
        rfl
  refine ⟨ps, [(na, va), (nb, vb)], hget, rfl, hpp, hlook_a, hlook_b, ?_⟩
  show (if ([(na, va), (nb, vb)] : List (List Char × List Char)) = []
      then some (render segs)
      else pyFormatMap [(na, va), (nb, vb)] (render segs)) = _
  rw [if_neg (List.cons_ne_nil _ _)]
  unfold pyFormatMap
  rw [hfmt, hrw]

/-- Witness for C1 on a concrete query template with the named
placeholders a and b, values x and y. -/
theorem c1_named_round_trip_w :
    ∃ ps d,
      get_placeholders (render [Seg.lit "SELECT ".toList, Seg.ph "a".toList,
        Seg.lit " AND ".toList, Seg.ph "b".toList])
        = some (ps, some Placeholder.named) ∧
      ps = (phToks [Seg.lit "SELECT ".toList, Seg.ph "a".toList,
        Seg.lit " AND ".toList, Seg.ph "b".toList]).dedup ∧
      parse_params ["a".toList ++ ':' :: "x".toList, "b".toList ++ ':' :: "y".toList]
        ps (some Placeholder.named) []
        = .ok (CliParsed.dict d) ∧
      lookupA d "a".toList = some "x".toList ∧ lookupA d "b".toList = some "y".toList ∧
      cliSubstitute (render [Seg.lit "SELECT ".toList, Seg.ph "a".toList,
        Seg.lit " AND ".toList, Seg.ph "b".toList]) (CliParsed.dict d)
        = some (([Seg.lit "SELECT ".toList, Seg.ph "a".toList,
            Seg.lit " AND ".toList, Seg.ph "b".toList].map (fun sg => match sg with
            | Seg.lit s => s
            | Seg.ph t => if t = "a".toList then "x".toList else "y".toList)).flatten) :=
  c1_named_round_trip
    [Seg.lit "SELECT ".toList, Seg.ph "a".toList, Seg.lit " AND ".toList,
      Seg.ph "b".toList]
    "a".toList "b".toList "x".toList "y".toList [] (by decide) (by decide) (by decide)
    (by decide)
    (by decide)
    (by decide) (by decide)
